import Mathlib

/- Verification of the identifier / pagination / error-mapping core of the
ga4gh data-access server.  The repository sample holds the generated wire
schema (src/ga4gh/common_pb2.py, message GAException) and the end-to-end
test suite (src/tests/unit/test_simulated_stack.py); the core components
themselves are modelled here from the specification, faithful to its words,
and checked against the concrete behaviour the test suite pins down. -/

/-- Modelled from the spec: the closed taxonomy of failure categories of
the ErrorMapper (spec 4.3 and 7); the exception hierarchy itself is not
part of the repository sample. -/
inductive ErrorCategory where
  | objectNotFound
  | requestNotSupported
  | requestInconsistent
  | rangeOutOfBounds
  | invalidPageToken
  | internalFailure
  deriving DecidableEq

/-- The wire error body of ga4gh/common.proto (src/ga4gh/common_pb2.py,
message GAException): a numeric error code and a message string. -/
structure GAException where
  error_code : Nat
  message : String
  deriving DecidableEq

/-- Modelled from the spec: the ErrorMapper's numeric code table (spec 4.3).
The code for objectNotFound is the one the test suite pins down
(test_simulated_stack.py line 592); the spec derives every code as a stable
hash of the category name, so the remaining categories carry fixed positive
values as well. -/
def errorCode : ErrorCategory → Nat
  | .objectNotFound => 758389611
  | .requestNotSupported => 793584668
  | .requestInconsistent => 461335195
  | .rangeOutOfBounds => 624129302
  | .invalidPageToken => 310758861
  | .internalFailure => 968410603

/-- Modelled from the spec: the ErrorMapper's HTTP status table (spec 4.3;
invalidPageToken folds into 400 at the boundary, spec 7). -/
def httpStatus : ErrorCategory → Nat
  | .objectNotFound => 404
  | .requestNotSupported => 501
  | .requestInconsistent => 400
  | .rangeOutOfBounds => 416
  | .invalidPageToken => 400
  | .internalFailure => 500

/-- Modelled from the spec: the message of an error response; for
objectNotFound the exact literal format is fixed by spec 8 and by
test_simulated_stack.py line 593. -/
def errorMessage : ErrorCategory → String → String
  | .objectNotFound, id => "No object of this type exists with id '" ++ id ++ "'"
  | .requestNotSupported, _ => "Operation is not supported"
  | .requestInconsistent, _ => "Request is inconsistent"
  | .rangeOutOfBounds, _ => "Request range is outside the addressable length"
  | .invalidPageToken, _ => "Invalid page token"
  | .internalFailure, _ => "Internal failure"

/-- Modelled from the spec: the error body the dispatcher writes for a
failure category raised while handling the request for identifier `id`
(spec 4.3 and 6). -/
def gaException (c : ErrorCategory) (id : String) : GAException :=
  { error_code := errorCode c, message := errorMessage c id }

/-- HTTP status of a dispatcher result: success is 200, a failure is mapped
through the ErrorMapper table. -/
def httpStatusOf {α : Type} : Except ErrorCategory α → Nat
  | .ok _ => 200
  | .error c => httpStatus c

/-- The reserved separator character of the compound-identifier grammar
(spec 6); the test suite's malformed identifiers are built from it. -/
def sepChar : Char := ':'

/-- Modelled from the spec: splitting an identifier body on the reserved
separator (spec 4.1 decode).  The result always holds one more piece than
the input holds separators, so it is never empty. -/
def splitSegs : List Char → List (List Char)
  | [] => [[]]
  | c :: cs =>
    match splitSegs cs with
    | [] => [[]]
    | s :: rest => if c = sepChar then [] :: s :: rest else (c :: s) :: rest

/-- Modelled from the spec: joining segments with the reserved separator
(spec 4.1 encode). -/
def joinSegs : List (List Char) → List Char
  | [] => []
  | [s] => s
  | s :: rest => s ++ sepChar :: joinSegs rest

/-- A compound-identifier segment is valid when it is non-empty and free of
the reserved separator (spec 3 and 4.1). -/
def validSegment (s : List Char) : Prop := s ≠ [] ∧ sepChar ∉ s

instance : DecidablePred validSegment := fun s =>
  inferInstanceAs (Decidable (s ≠ [] ∧ sepChar ∉ s))

/-- Modelled from the spec: IdentifierCodec.encode (spec 4.1) — joins the
segments with the reserved separator; fails when the segment sequence is
empty (a CompoundId is a non-empty sequence, spec 3) or when a segment is
empty or contains the separator. -/
def encode (segments : List String) : Option String :=
  if segments ≠ [] ∧ ∀ s ∈ segments, validSegment s.data then
    some (String.mk (joinSegs (segments.map String.data)))
  else none

/-- Modelled from the spec: IdentifierCodec.decode (spec 4.1) — splits on
the reserved separator and fails when the number of segments differs from
the expected depth or any segment is empty (this covers leading, trailing
and doubled separators).  The spec's additional permitted-character screen
is not modelled separately: an identifier that splits cleanly but names no
object is rejected at resolution, and spec 4.1 folds both rejections into
the one ObjectNotFound surface. -/
def decode (id : String) (expectedDepth : Nat) : Option (List String) :=
  if (splitSegs id.data).length = expectedDepth ∧ ∀ s ∈ splitSegs id.data, s ≠ [] then
    some ((splitSegs id.data).map String.mk)
  else none

theorem splitSegs_ne_nil (l : List Char) : splitSegs l ≠ [] := by
  cases l with
  | nil => simp [splitSegs]
  | cons c cs =>
    unfold splitSegs
    cases splitSegs cs with
    | nil => simp
    | cons s rest =>
      by_cases h : c = sepChar <;> simp [h]

theorem splitSegs_of_not_mem (s : List Char) (h : sepChar ∉ s) :
    splitSegs s = [s] := by
  induction s with
  | nil => rfl
  | cons c cs ih =>
    have hc : c ≠ sepChar := fun hh => h (hh ▸ List.mem_cons_self c cs)
    have hcs : sepChar ∉ cs := fun hm => h (List.mem_cons_of_mem c hm)
    unfold splitSegs
    rw [ih hcs]
    simp [hc]

theorem splitSegs_sep_cons (l : List Char) :
    splitSegs (sepChar :: l) = [] :: splitSegs l := by
  rcases hl : splitSegs l with _ | ⟨t, rest⟩
  · exact absurd hl (splitSegs_ne_nil l)
  · simp [splitSegs, hl]

theorem splitSegs_append_sep (s l : List Char) (h : sepChar ∉ s) :
    splitSegs (s ++ sepChar :: l) = s :: splitSegs l := by
  induction s with
  | nil => simpa using splitSegs_sep_cons l
  | cons c cs ih =>
    have hc : c ≠ sepChar := fun hh => h (hh ▸ List.mem_cons_self c cs)
    have hcs : sepChar ∉ cs := fun hm => h (List.mem_cons_of_mem c hm)
    have hrec := ih hcs
    simp [splitSegs, List.cons_append, hrec, hc]

theorem splitSegs_joinSegs (segs : List (List Char)) (hne : segs ≠ [])
    (hv : ∀ s ∈ segs, validSegment s) : splitSegs (joinSegs segs) = segs := by
  induction segs with
  | nil => exact absurd rfl hne
  | cons s rest ih =>
    cases rest with
    | nil =>
      have hs := hv s (List.mem_cons_self s [])
      simpa [joinSegs] using splitSegs_of_not_mem s hs.2
    | cons t rest2 =>
      have hs := hv s (List.mem_cons_self s (t :: rest2))
      have hrest : ∀ u ∈ t :: rest2, validSegment u := fun u hu =>
        hv u (List.mem_cons_of_mem s hu)
      have hjoin : joinSegs (s :: t :: rest2) = s ++ sepChar :: joinSegs (t :: rest2) := rfl
      rw [hjoin, splitSegs_append_sep s _ hs.2, ih (by simp) hrest]

/-- C3: for every valid segment sequence, decoding the encoded identifier at
the expected depth equal to the number of segments returns exactly the
original segments. -/
theorem decode_encode_roundTrip (s : List String) (e : String)
    (h : encode s = some e) : decode e s.length = some s := by
  unfold encode at h
  split at h
  case isFalse => exact absurd h (by simp)
  case isTrue hcond =>
    obtain ⟨hne, hv⟩ := hcond
    have he : e = String.mk (joinSegs (s.map String.data)) := by
      injection h with h2
      exact h2.symm
    subst he
    have hmapne : s.map String.data ≠ [] := by simpa using hne
    have hvmap : ∀ t ∈ s.map String.data, validSegment t := by
      intro t ht
      obtain ⟨u, hu, rfl⟩ := List.mem_map.mp ht
      exact hv u hu
    have hdata : (String.mk (joinSegs (s.map String.data))).data
        = joinSegs (s.map String.data) := rfl
    unfold decode
    rw [hdata, splitSegs_joinSegs _ hmapne hvmap]
    have hlen : (s.map String.data).length = s.length := by simp
    have hnonempty : ∀ t ∈ s.map String.data, t ≠ [] := fun t ht =>
      (hvmap t ht).1
    rw [if_pos ⟨hlen, hnonempty⟩]
    rw [List.map_map, show (String.mk ∘ String.data) = id from funext fun x => rfl,
      List.map_id]

theorem decode_encode_roundTrip_witness :
    encode ["d1", "vs1"] = some ("d1:vs1")
      ∧ decode ("d1:vs1") (List.length ["d1", "vs1"]) = some ["d1", "vs1"] :=
  ⟨by decide, decode_encode_roundTrip ["d1", "vs1"] ("d1:vs1") (by decide)⟩

/-- One page of a search response: the page's objects and the continuation
cursor; `none` models the empty next_page_token string that signals
completion (spec 4.4 and 6). -/
structure SearchPage (α : Type) where
  page : List α
  nextPageToken : Option Nat
  deriving DecidableEq

/-- Modelled from the spec: accumulating further serialized candidates into
a page while neither the remaining page-size limit nor the remaining
response budget is exceeded (spec 4.4 step 2). -/
def fillPage {α : Type} (sz : α → Nat) : Nat → Nat → List α → List α
  | _, _, [] => []
  | 0, _, _ => []
  | limit + 1, budget, x :: xs =>
    if sz x ≤ budget then x :: fillPage sz limit (budget - sz x) xs
    else []

/-- Modelled from the spec: the page taken from the remaining candidates —
the first remaining candidate is always included, even when it alone
exceeds the budget (the progress guarantee of spec 4.4), and the page is
then filled within the limits. -/
def takePage {α : Type} (sz : α → Nat) (pageSize budget : Nat) :
    List α → List α
  | [] => []
  | x :: xs => x :: fillPage sz (pageSize - 1) (budget - sz x) xs

/-- Modelled from the spec: one SearchPaginator invocation (spec 4.4) — skip
candidates per the decoded cursor, fill the page, and mint the resumption
cursor exactly when candidates remain; `none` is the empty token. -/
def searchPage {α : Type} (sz : α → Nat) (pageSize budget : Nat)
    (source : List α) (cursor : Nat) : SearchPage α :=
  { page := takePage sz pageSize budget (source.drop cursor)
    nextPageToken :=
      if cursor + (takePage sz pageSize budget (source.drop cursor)).length
          < source.length then
        some (cursor + (takePage sz pageSize budget (source.drop cursor)).length)
      else none }

/-- Modelled from the spec: the client loop of the pagination protocol —
start from the empty token (cursor 0 is the canonical start, spec 4.2) and
re-invoke the paginator on each returned token until the token is empty;
`fuel` bounds the number of requests and is immaterial once it exceeds the
source length. -/
def runSearch {α : Type} (sz : α → Nat) (pageSize budget : Nat)
    (source : List α) : Nat → Nat → List (List α)
  | 0, _ => []
  | fuel + 1, cursor =>
    match (searchPage sz pageSize budget source cursor).nextPageToken with
    | none => [(searchPage sz pageSize budget source cursor).page]
    | some c =>
      (searchPage sz pageSize budget source cursor).page ::
        runSearch sz pageSize budget source fuel c

theorem fillPage_eq_take {α : Type} (sz : α → Nat) :
    ∀ (limit budget : Nat) (l : List α),
      fillPage sz limit budget l = l.take (fillPage sz limit budget l).length := by
  intro limit budget l
  induction l generalizing limit budget with
  | nil => cases limit <;> rfl
  | cons x xs ih =>
    cases limit with
    | zero => rfl
    | succ n =>
      by_cases h : sz x ≤ budget
      · simp only [fillPage, if_pos h, List.length_cons, List.take_succ_cons]
        rw [← ih]
      · simp [fillPage, if_neg h]

theorem takePage_eq_take {α : Type} (sz : α → Nat) (pageSize budget : Nat)
    (l : List α) :
    takePage sz pageSize budget l = l.take (takePage sz pageSize budget l).length := by
  cases l with
  | nil => rfl
  | cons x xs =>
    simp only [takePage, List.length_cons, List.take_succ_cons]
    rw [← fillPage_eq_take]

theorem takePage_ne_nil {α : Type} (sz : α → Nat) (pageSize budget : Nat)
    (l : List α) (h : l ≠ []) : takePage sz pageSize budget l ≠ [] := by
  cases l with
  | nil => exact absurd rfl h
  | cons x xs => simp [takePage]

theorem runSearch_flatten {α : Type} (sz : α → Nat) (pageSize budget : Nat)
    (source : List α) :
    ∀ (fuel cursor : Nat), source.length - cursor < fuel →
      (runSearch sz pageSize budget source fuel cursor).flatten
        = source.drop cursor := by
  intro fuel
  induction fuel with
  | zero => intro cursor h; omega
  | succ n ih =>
    intro cursor hfuel
    by_cases hlt : cursor + (takePage sz pageSize budget (source.drop cursor)).length
        < source.length
    · have hcur : cursor < source.length := by omega
      have hdrop : source.drop cursor ≠ [] := by
        have : 0 < (source.drop cursor).length := by
          rw [List.length_drop]; omega
        exact List.ne_nil_of_length_pos this
      have hne := takePage_ne_nil sz pageSize budget (source.drop cursor) hdrop
      have hpl : 0 < (takePage sz pageSize budget (source.drop cursor)).length :=
        List.length_pos.mpr hne
      have hrec := ih (cursor + (takePage sz pageSize budget (source.drop cursor)).length)
        (by omega)
      simp only [runSearch, searchPage, if_pos hlt, List.flatten_cons, hrec]
      nth_rewrite 1 [takePage_eq_take]
      exact List.drop_take_append_drop source cursor _
    · simp only [runSearch, searchPage, if_neg hlt, List.flatten_cons,
        List.flatten_nil, List.append_nil]
      rw [takePage_eq_take]
      have hlen : (source.drop cursor).length
          ≤ (takePage sz pageSize budget (source.drop cursor)).length := by
        rw [List.length_drop]; omega
      exact List.take_of_length_le hlen

/-- C1: repeatedly invoking the SearchPaginator from the empty page token —
passing each returned next_page_token back until it is empty — concatenates
to exactly the source in its original order, with no object duplicated and
none skipped, for every page size of at least one and every response
budget. -/
theorem pagination_complete {α : Type} (sz : α → Nat) (pageSize budget : Nat)
    (source : List α) (hps : 1 ≤ pageSize) :
    (runSearch sz pageSize budget source (source.length + 1) 0).flatten = source := by
  have h := runSearch_flatten sz pageSize budget source (source.length + 1) 0 (by omega)
  simpa using h

theorem pagination_complete_witness :
    (runSearch (fun _ => 1) 2 100 [10, 20, 30] 4 0).flatten = [10, 20, 30] :=
  pagination_complete (fun _ => 1) 2 100 [10, 20, 30] (by decide)

/-- One page of a ListReferenceBases response: the payload, the reported
offset of the payload within the full sequence, and the continuation token
carrying (next offset, start, end); `none` models the empty next_page_token
(spec 4.5 and the range response shape of spec 6). -/
structure BasesPage where
  sequence : List Char
  offset : Nat
  nextPageToken : Option (Nat × Nat × Nat)
  deriving DecidableEq

/-- Modelled from the spec: the number of bytes one range page carries — the
longest prefix of the remaining range that fits the response budget, with
at least one byte whenever bytes remain (the progress guarantee of
spec 4.4 and 4.5). -/
def chunkLen (endPos budget offset : Nat) : Nat :=
  if endPos - offset = 0 then 0 else max 1 (min budget (endPos - offset))

/-- Modelled from the spec: one SequenceRangePager invocation on an already
validated range (spec 4.5) — the payload starting at `offset`, the offset
reported back, and the resumption token minted exactly when bytes remain. -/
def basesPage (seq : List Char) (start endPos budget offset : Nat) : BasesPage :=
  { sequence := (seq.drop offset).take (chunkLen endPos budget offset)
    offset := offset
    nextPageToken :=
      if offset + chunkLen endPos budget offset < endPos then
        some (offset + chunkLen endPos budget offset, start, endPos)
      else none }

/-- Modelled from the spec: the client loop of paginated range retrieval —
request page after page, each time passing back the returned token, which
is self-contained (it carries offset, start and end, spec 4.5), until the
token is empty; `fuel` bounds the number of requests. -/
def runBases (seq : List Char) (budget : Nat) :
    Nat → Nat → Nat → Nat → List BasesPage
  | 0, _, _, _ => []
  | fuel + 1, start, endPos, offset =>
    match (basesPage seq start endPos budget offset).nextPageToken with
    | none => [basesPage seq start endPos budget offset]
    | some (off, s, e) =>
      basesPage seq start endPos budget offset :: runBases seq budget fuel s e off

theorem runBases_spec (seq : List Char) (budget start endPos : Nat)
    (hb : 1 ≤ budget) (hend : endPos ≤ seq.length) :
    ∀ (fuel offset : Nat), endPos - offset < fuel →
      (((runBases seq budget fuel start endPos offset).map
          BasesPage.sequence).flatten = (seq.drop offset).take (endPos - offset))
      ∧ ∀ p ∈ runBases seq budget fuel start endPos offset,
          p.sequence = (seq.drop p.offset).take p.sequence.length := by
  intro fuel
  induction fuel with
  | zero => intro offset h; omega
  | succ n ih =>
    intro offset hfuel
    by_cases hrem : endPos - offset = 0
    · have hchunk : chunkLen endPos budget offset = 0 := by
        simp [chunkLen, hrem]
      have hlt : ¬ offset < endPos := by omega
      constructor
      · simp [runBases, basesPage, hchunk, hlt, hrem]
      · intro p hp
        simp only [runBases, basesPage, hchunk, Nat.add_zero, hlt, if_false,
          eq_self_iff_true, if_neg, List.mem_singleton] at hp
        subst hp
        simp
    · have hc1 : 1 ≤ chunkLen endPos budget offset := by
        simp only [chunkLen, if_neg hrem]
        omega
      have hcr : chunkLen endPos budget offset ≤ endPos - offset := by
        simp only [chunkLen, if_neg hrem]
        omega
      have hlenseq : ((seq.drop offset).take (chunkLen endPos budget offset)).length
          = chunkLen endPos budget offset := by
        rw [List.length_take, List.length_drop]
        omega
      by_cases htok : offset + chunkLen endPos budget offset < endPos
      · have hrec := ih (offset + chunkLen endPos budget offset) (by omega)
        constructor
        · simp only [runBases, basesPage, if_pos htok, List.map_cons,
            List.flatten_cons, hrec.1]
          have hdd : seq.drop (offset + chunkLen endPos budget offset)
              = (seq.drop offset).drop (chunkLen endPos budget offset) := by
            rw [List.drop_drop]
          rw [hdd, ← List.take_add]
          congr 1
          omega
        · intro p hp
          simp only [runBases, basesPage, if_pos htok, List.mem_cons] at hp
          rcases hp with hp | hp
          · subst hp
            simp only
            rw [hlenseq]
          · exact hrec.2 p hp
      · have hceq : chunkLen endPos budget offset = endPos - offset := by omega
        constructor
        · simp only [runBases, basesPage, if_neg htok, List.map_cons,
            List.map_nil, List.flatten_cons, List.flatten_nil, List.append_nil]
          rw [hceq]
        · intro p hp
          simp only [runBases, basesPage, if_neg htok, List.mem_singleton] at hp
          subst hp
          simp only
          rw [hlenseq]

/-- C2: paginated retrieval of a validated range [start, end) — following
next_page_token until it is empty — concatenates, in token order, to
exactly the bytes of the full range, byte for byte, for every response
budget of at least one; and each page's reported offset is the position of
its payload within the full sequence. -/
theorem range_concatenation (seq : List Char) (start endPos budget : Nat)
    (h1 : start ≤ endPos) (h2 : endPos ≤ seq.length) (hb : 1 ≤ budget) :
    (((runBases seq budget (endPos - start + 1) start endPos start).map
        BasesPage.sequence).flatten = (seq.drop start).take (endPos - start))
    ∧ ∀ p ∈ runBases seq budget (endPos - start + 1) start endPos start,
        p.sequence = (seq.drop p.offset).take p.sequence.length :=
  runBases_spec seq budget start endPos hb h2 (endPos - start + 1) start (by omega)

theorem range_concatenation_witness :
    ((((runBases (String.data "ACGTACGTAC") 3 8 2 9 2).map
        BasesPage.sequence).flatten = ((String.data "ACGTACGTAC").drop 2).take 7)
    ∧ ∀ p ∈ runBases (String.data "ACGTACGTAC") 3 8 2 9 2,
        p.sequence = ((String.data "ACGTACGTAC").drop p.offset).take p.sequence.length) :=
  range_concatenation (String.data "ACGTACGTAC") 2 9 3 (by decide) (by decide) (by decide)

/-- Modelled from the spec: the ListReferenceBases boundary (spec 4.5) —
validates 0 ≤ start ≤ end ≤ length and raises RangeOutOfBounds on any
violation; a valid request is answered from the first page of the range,
whose offset starts at start. -/
def listReferenceBases (seq : List Char) (start endPos : Int) (budget : Nat) :
    Except ErrorCategory BasesPage :=
  if start < 0 ∨ endPos < start ∨ (seq.length : Int) < endPos then
    .error .rangeOutOfBounds
  else .ok (basesPage seq start.toNat endPos.toNat budget start.toNat)

/-- C7: a byte-range request with start < 0, or start > end, or end > length
fails with the RangeOutOfBounds category, reported as 416, carrying no
partial page, while a request with start = end within bounds succeeds with
zero bytes and an empty next_page_token rather than an error. -/
theorem range_bounds (seq : List Char) (start endPos : Int) (budget : Nat) :
    ((start < 0 ∨ endPos < start ∨ (seq.length : Int) < endPos) →
        listReferenceBases seq start endPos budget = .error .rangeOutOfBounds
        ∧ httpStatusOf (listReferenceBases seq start endPos budget) = 416)
    ∧ (0 ≤ start → start = endPos → endPos ≤ (seq.length : Int) →
        listReferenceBases seq start endPos budget
          = .ok { sequence := [], offset := start.toNat, nextPageToken := none }) := by
  constructor
  · intro h
    rw [listReferenceBases, if_pos h]
    exact ⟨rfl, rfl⟩
  · intro h0 heq hle
    have hnot : ¬ (start < 0 ∨ endPos < start ∨ (seq.length : Int) < endPos) := by
      omega
    rw [listReferenceBases, if_neg hnot]
    have hoff : endPos.toNat = start.toNat := by omega
    have hchunk : chunkLen endPos.toNat budget start.toNat = 0 := by
      simp [chunkLen, hoff]
    have hlt : ¬ start.toNat < endPos.toNat := by omega
    simp [basesPage, hchunk, hlt]

theorem range_bounds_witness :
    (listReferenceBases (String.data "ACGT") (-1) 2 3 = .error .rangeOutOfBounds
      ∧ httpStatusOf (listReferenceBases (String.data "ACGT") (-1) 2 3) = 416)
    ∧ listReferenceBases (String.data "ACGT") 2 2 3
        = .ok { sequence := [], offset := 2, nextPageToken := none } :=
  ⟨(range_bounds (String.data "ACGT") (-1) 2 3).1 (Or.inl (by decide)),
   (range_bounds (String.data "ACGT") 2 2 3).2 (by decide) (by decide) (by decide)⟩

/-- C8: progress — whatever the response budget (even one smaller than the
serialized size of the single next candidate), a non-empty remaining
candidate source always yields a page holding at least one object, and a
non-empty remaining byte range of a validated request always yields at
least one byte, so the caller's loop can never spin on empty pages. -/
theorem pagination_progress {α : Type} (sz : α → Nat) (pageSize budget : Nat)
    (source : List α) (cursor : Nat)
    (seq : List Char) (start endPos byteBudget offset : Nat) :
    (cursor < source.length → (searchPage sz pageSize budget source cursor).page ≠ [])
    ∧ (offset < endPos → endPos ≤ seq.length →
        (basesPage seq start endPos byteBudget offset).sequence ≠ []) := by
  constructor
  · intro hcur
    have hdrop : source.drop cursor ≠ [] := by
      apply List.ne_nil_of_length_pos
      rw [List.length_drop]
      omega
    exact takePage_ne_nil sz pageSize budget (source.drop cursor) hdrop
  · intro hoff hlen
    have hrem : endPos - offset ≠ 0 := by omega
    have hc1 : 1 ≤ chunkLen endPos byteBudget offset := by
      simp only [chunkLen, if_neg hrem]
      omega
    apply List.ne_nil_of_length_pos
    simp only [basesPage, List.length_take, List.length_drop]
    omega

theorem pagination_progress_witness :
    ((searchPage (fun _ => 50) 3 10 [7, 8] 1).page ≠ [])
    ∧ (basesPage (String.data "ACGT") 0 4 0 2).sequence ≠ [] :=
  ⟨(pagination_progress (fun _ => 50) 3 10 [7, 8] 1 (String.data "ACGT") 0 4 0 2).1
      (by decide),
   (pagination_progress (fun _ => 50) 3 10 [7, 8] 1 (String.data "ACGT") 0 4 0 2).2
      (by decide) (by decide)⟩

/-- Modelled from the spec: a stored domain object of the data-model
collaborator — its compound key path (the chain of local keys from the
root, spec 3 and 9) and its filterable local name. -/
structure StoredObject where
  path : List String
  name : String
  deriving DecidableEq

/-- Modelled from the spec: the repository of stored objects the dispatcher
resolves identifiers against (the data-model collaborator of spec 2). -/
structure DataRepo where
  stored : List StoredObject
  deriving DecidableEq

/-- Modelled from the spec: resolving a decoded key path to an existing
object (spec 2 data flow; the existence half of spec 4.1's validation). -/
def resolvePath (repo : DataRepo) (segs : List String) : Option StoredObject :=
  repo.stored.find? fun o => decide (o.path = segs)

/-- Modelled from the spec: the get-by-identifier path of the dispatcher —
decode, then resolve; both failure modes surface as the one ObjectNotFound
category (spec 4.1). -/
def getObject (repo : DataRepo) (id : String) (depth : Nat) :
    Except ErrorCategory StoredObject :=
  match decode id depth with
  | none => .error .objectNotFound
  | some segs =>
    match resolvePath repo segs with
    | none => .error .objectNotFound
    | some o => .ok o

/-- The identifiers the test suite requires to be absent and to raise 404
(test_simulated_stack.py getBadIds). -/
def badIds : List String :=
  ["1234:", String.mk (List.replicate 100 'x'), ":", ":xx", "::", ":::", "::::"]

/-- A small concrete repository in the shape of the simulated test backend:
one dataset holding variant sets which hold a call set, each object named
by its local key (test_simulated_stack.py setUp). -/
def simRepo : DataRepo :=
  { stored :=
      [ { path := ["d1"], name := "d1" }
      , { path := ["d1", "vs1"], name := "vs1" }
      , { path := ["d1", "vs2"], name := "vs2" }
      , { path := ["d1", "vs1", "cs1"], name := "cs1" } ] }

theorem getObject_notFound_aux (repo : DataRepo) (id : String) (depth : Nat)
    (h : decode id depth = none
        ∨ ∃ segs, decode id depth = some segs ∧ resolvePath repo segs = none) :
    getObject repo id depth = .error .objectNotFound := by
  rcases h with h | ⟨segs, h1, h2⟩
  · simp [getObject, h]
  · simp [getObject, h1, h2]

theorem decode_eq_none_of_empty_seg (id : String)
    (h : ¬ ∀ s ∈ splitSegs id.data, s ≠ []) (depth : Nat) :
    decode id depth = none := by
  unfold decode
  exact if_neg fun hc => h hc.2

/-- C4: every identifier that fails to decode and every identifier that
decodes but resolves to no existing object fails as the one ObjectNotFound
category, reported as a 404 — the malformed and the missing case are
indistinguishable at the surface — and each of the test suite's bad
identifiers does so at every expected depth. -/
theorem objectNotFound_unified :
    (∀ (repo : DataRepo) (id : String) (depth : Nat),
        (decode id depth = none
          ∨ ∃ segs, decode id depth = some segs ∧ resolvePath repo segs = none) →
        getObject repo id depth = .error .objectNotFound
          ∧ httpStatusOf (getObject repo id depth) = 404)
    ∧ ∀ id ∈ badIds, ∀ depth : Nat,
        getObject simRepo id depth = .error .objectNotFound := by
  constructor
  · intro repo id depth h
    have hg := getObject_notFound_aux repo id depth h
    exact ⟨hg, by rw [hg]; rfl⟩
  · intro id hid depth
    simp only [badIds, List.mem_cons, List.not_mem_nil, or_false] at hid
    rcases hid with rfl | rfl | rfl | rfl | rfl | rfl | rfl
    · exact getObject_notFound_aux _ _ _
        (Or.inl (decode_eq_none_of_empty_seg _ (by decide) depth))
    · by_cases hd : depth = 1
      · subst hd
        exact getObject_notFound_aux _ _ _
          (Or.inr ⟨[String.mk (List.replicate 100 'x')], by decide, by decide⟩)
      · have hnone : decode (String.mk (List.replicate 100 'x')) depth = none := by
          have hsplit : splitSegs (String.mk (List.replicate 100 'x')).data
              = [List.replicate 100 'x'] := splitSegs_of_not_mem _ (by decide)
          unfold decode
          rw [hsplit]
          exact if_neg fun hc => hd (by simpa using hc.1.symm)
        exact getObject_notFound_aux _ _ _ (Or.inl hnone)
    · exact getObject_notFound_aux _ _ _
        (Or.inl (decode_eq_none_of_empty_seg _ (by decide) depth))
    · exact getObject_notFound_aux _ _ _
        (Or.inl (decode_eq_none_of_empty_seg _ (by decide) depth))
    · exact getObject_notFound_aux _ _ _
        (Or.inl (decode_eq_none_of_empty_seg _ (by decide) depth))
    · exact getObject_notFound_aux _ _ _
        (Or.inl (decode_eq_none_of_empty_seg _ (by decide) depth))
    · exact getObject_notFound_aux _ _ _
        (Or.inl (decode_eq_none_of_empty_seg _ (by decide) depth))

theorem objectNotFound_unified_witness :
    getObject simRepo ("::") 2 = .error .objectNotFound :=
  objectNotFound_unified.2 ("::") (by decide) 2

theorem append_ne_empty (a b : String) (ha : a.data ≠ []) : a ++ b ≠ "" := by
  intro h
  have hd : a.data ++ b.data = ([] : List Char) := congrArg String.data h
  exact ha (List.append_eq_nil.mp hd).1

/-- C5: the ErrorMapper is deterministic — two invocations on failures of
the same category always produce the same numeric error_code — and every
error response carries error_code > 0 and a non-empty message string. -/
theorem errorMapper_deterministic :
    (∀ c c' : ErrorCategory, c = c' → errorCode c = errorCode c')
    ∧ ∀ (c : ErrorCategory) (id : String),
        0 < (gaException c id).error_code ∧ (gaException c id).message ≠ "" := by
  refine ⟨fun c c' h => by rw [h], fun c id => ⟨?_, ?_⟩⟩
  · cases c <;> norm_num [gaException, errorCode]
  · have hlit : ∀ s : String, s.data ≠ [] → s ≠ "" := fun s hs h =>
      hs (congrArg String.data h)
    cases c with
    | objectNotFound =>
      show ("No object of this type exists with id '" ++ id ++ "'" : String) ≠ ""
      apply append_ne_empty
      intro hcontra
      have hc2 : ("No object of this type exists with id '" : String).data ++ id.data
          = ([] : List Char) := hcontra
      exact absurd (List.append_eq_nil.mp hc2).1 (by decide)
    | requestNotSupported =>
      show ("Operation is not supported" : String) ≠ ""
      exact hlit _ (by decide)
    | requestInconsistent =>
      show ("Request is inconsistent" : String) ≠ ""
      exact hlit _ (by decide)
    | rangeOutOfBounds =>
      show ("Request range is outside the addressable length" : String) ≠ ""
      exact hlit _ (by decide)
    | invalidPageToken =>
      show ("Invalid page token" : String) ≠ ""
      exact hlit _ (by decide)
    | internalFailure =>
      show ("Internal failure" : String) ≠ ""
      exact hlit _ (by decide)

theorem errorMapper_deterministic_witness :
    errorCode .objectNotFound = errorCode .objectNotFound
    ∧ 0 < (gaException .objectNotFound ("b4d==")).error_code
    ∧ (gaException .objectNotFound ("b4d==")).message ≠ "" :=
  ⟨errorMapper_deterministic.1 .objectNotFound .objectNotFound rfl,
   (errorMapper_deterministic.2 .objectNotFound ("b4d==")).1,
   (errorMapper_deterministic.2 .objectNotFound ("b4d==")).2⟩

/-- Modelled from the spec: the candidate children of a resolved parent —
the stored objects whose key path extends the parent's path by exactly one
local key (spec 2 and 3). -/
def childrenOf (repo : DataRepo) (parent : List String) : List StoredObject :=
  repo.stored.filter fun o =>
    decide (o.path.length = parent.length + 1 ∧ o.path.take parent.length = parent)

/-- Modelled from the spec: the search path of the dispatcher (spec 2 data
flow) — decode the parent identifier, resolve it, obtain the candidate
children, apply the request's name filter, and paginate from the empty page
token; decode and resolution failures surface as ObjectNotFound
(spec 4.1). -/
def searchCollection (repo : DataRepo) (parentId : String) (depth : Nat)
    (nameFilter : String) (sz : StoredObject → Nat) (pageSize budget : Nat) :
    Except ErrorCategory (SearchPage StoredObject) :=
  match decode parentId depth with
  | none => .error .objectNotFound
  | some segs =>
    match resolvePath repo segs with
    | none => .error .objectNotFound
    | some _ =>
      if nameFilter = "" then
        .ok (searchPage sz pageSize budget (childrenOf repo segs) 0)
      else
        .ok (searchPage sz pageSize budget
          ((childrenOf repo segs).filter fun o => decide (o.name = nameFilter)) 0)

/-- Modelled from the spec: the wire shape of a search outcome — status 200
and no error body on success, the mapped status and the GAException body
built from the offending identifier on failure (spec 4.3, 6 and 7). -/
def searchResponse (repo : DataRepo) (parentId : String) (depth : Nat)
    (nameFilter : String) (sz : StoredObject → Nat) (pageSize budget : Nat) :
    Nat × Option GAException :=
  match searchCollection repo parentId depth nameFilter sz pageSize budget with
  | .ok _ => (200, none)
  | .error c => (httpStatus c, some (gaException c parentId))

/-- C6: a search supplying the identifier b4d== where a valid parent
identifier is expected yields an error response whose error_code is the one
fixed positive integer 758389611 and whose message is exactly the literal
string the test suite pins down. -/
theorem searchMalformedParent :
    searchResponse simRepo ("b4d==") 2 ("") (fun _ => 1) 10 1000
      = (404, some { error_code := 758389611
                   , message := "No object of this type exists with id 'b4d=='" })
    ∧ 0 < errorCode .objectNotFound := by
  exact ⟨by decide, by decide⟩

/-- C10: a search whose parent identifier resolves but whose name filter
matches no object in the collection succeeds with status 200, an empty
result list and an empty next_page_token — never an error — whereas an
unresolvable parent identifier is reported as a 404 ObjectNotFound. -/
theorem searchFilter_noMatch (repo : DataRepo) (parentId : String) (depth : Nat)
    (nameFilter : String) (sz : StoredObject → Nat) (pageSize budget : Nat) :
    (∀ segs o, decode parentId depth = some segs → resolvePath repo segs = some o →
        nameFilter ≠ "" → (∀ c ∈ childrenOf repo segs, c.name ≠ nameFilter) →
        searchCollection repo parentId depth nameFilter sz pageSize budget
            = .ok { page := [], nextPageToken := none }
          ∧ searchResponse repo parentId depth nameFilter sz pageSize budget = (200, none))
    ∧ ((decode parentId depth = none
          ∨ ∃ segs, decode parentId depth = some segs ∧ resolvePath repo segs = none) →
        searchResponse repo parentId depth nameFilter sz pageSize budget
          = (404, some (gaException .objectNotFound parentId))) := by
  constructor
  · intro segs o h1 h2 hf hno
    have hfilter : (childrenOf repo segs).filter (fun c => decide (c.name = nameFilter))
        = [] := by
      apply List.filter_eq_nil_iff.mpr
      intro a ha
      simp [hno a ha]
    have hcand : searchCollection repo parentId depth nameFilter sz pageSize budget
        = .ok (searchPage sz pageSize budget ([] : List StoredObject) 0) := by
      simp [searchCollection, h1, h2, hf, hfilter]
    have hpage : searchPage sz pageSize budget ([] : List StoredObject) 0
        = { page := [], nextPageToken := none } := rfl
    rw [hpage] at hcand
    refine ⟨hcand, ?_⟩
    simp [searchResponse, hcand]
  · intro h
    have hcoll : searchCollection repo parentId depth nameFilter sz pageSize budget
        = .error .objectNotFound := by
      rcases h with h | ⟨segs, h1, h2⟩
      · simp [searchCollection, h]
      · simp [searchCollection, h1, h2]
    simp [searchResponse, hcoll]
    rfl

theorem searchFilter_noMatch_witness :
    searchCollection simRepo ("d1") 1 ("nope") (fun _ => 1) 10 1000
        = .ok { page := [], nextPageToken := none }
      ∧ searchResponse simRepo ("d1") 1 ("nope") (fun _ => 1) 10 1000 = (200, none) :=
  (searchFilter_noMatch simRepo ("d1") 1 ("nope") (fun _ => 1) 10 1000).1
    [("d1")] { path := [("d1")], name := ("d1") }
    (by decide) (by decide) (by decide) (by decide)

/-- Modelled from the spec: the read-group to read-group-set ancestry the
reads search consults; the data model is not part of the repository sample,
so it is reduced to the pairs (read group id, read group set id). -/
structure ReadsRepo where
  readGroups : List (String × String)
  deriving DecidableEq

/-- Modelled from the spec: the read-group-set ancestor of a read group. -/
def rgSetOf (repo : ReadsRepo) (readGroupId : String) : Option String :=
  (repo.readGroups.find? fun p => decide (p.1 = readGroupId)).map Prod.snd

/-- Whether every entry of the list equals the first one: the reads search
requires all read groups to come from one read-group set. -/
def allSame : List (Option String) → Bool
  | [] => true
  | x :: xs => xs.all fun y => decide (y = x)

theorem allSame_eq (l : List (Option String)) (h : allSame l = true) :
    ∀ x ∈ l, ∀ y ∈ l, x = y := by
  cases l with
  | nil => intro x hx; exact absurd hx (List.not_mem_nil x)
  | cons hd tl =>
    have h2 : tl.all (fun y => decide (y = hd)) = true := h
    have hall : ∀ z ∈ tl, z = hd := fun z hz =>
      of_decide_eq_true (List.all_eq_true.mp h2 z hz)
    intro x hx y hy
    rcases List.mem_cons.mp hx with rfl | hx2
    · rcases List.mem_cons.mp hy with rfl | hy2
      · rfl
      · exact (hall y hy2).symm
    · rcases List.mem_cons.mp hy with rfl | hy2
      · exact hall x hx2
      · rw [hall x hx2, hall y hy2]

/-- Modelled from the spec: the reads-search boundary checks (spec 4.3
triggers) — an unmapped-read search, recognisable by its empty reference
identifier, is RequestNotSupported; read groups drawn from more than one
read-group set are RequestInconsistent. -/
def searchReads (repo : ReadsRepo) (readGroupIds : List String)
    (referenceId : String) : Except ErrorCategory Unit :=
  if referenceId = "" then .error .requestNotSupported
  else if allSame (readGroupIds.map (rgSetOf repo)) then .ok ()
  else .error .requestInconsistent

/-- C9: a reads search with valid read-group identifiers but an empty
reference identifier fails RequestNotSupported with status 501, while a
reads search whose read groups come from more than one read-group set fails
RequestInconsistent with status 400. -/
theorem unsupportedReadOperations (repo : ReadsRepo) (readGroupIds : List String)
    (referenceId : String) :
    ((∀ g ∈ readGroupIds, (rgSetOf repo g).isSome) → referenceId = "" →
        searchReads repo readGroupIds referenceId = .error .requestNotSupported
        ∧ httpStatusOf (searchReads repo readGroupIds referenceId) = 501)
    ∧ (referenceId ≠ "" →
        (∃ a ∈ readGroupIds, ∃ b ∈ readGroupIds, ∃ sa sb,
            rgSetOf repo a = some sa ∧ rgSetOf repo b = some sb ∧ sa ≠ sb) →
        searchReads repo readGroupIds referenceId = .error .requestInconsistent
        ∧ httpStatusOf (searchReads repo readGroupIds referenceId) = 400) := by
  constructor
  · intro _ href
    rw [searchReads, if_pos href]
    exact ⟨rfl, rfl⟩
  · intro href hex
    obtain ⟨a, ha, b, hb, sa, sb, hsa, hsb, hne⟩ := hex
    have hfalse : ¬ allSame (readGroupIds.map (rgSetOf repo)) = true := by
      intro htrue
      have hmem1 : some sa ∈ readGroupIds.map (rgSetOf repo) := by
        rw [← hsa]
        exact List.mem_map_of_mem _ ha
      have hmem2 : some sb ∈ readGroupIds.map (rgSetOf repo) := by
        rw [← hsb]
        exact List.mem_map_of_mem _ hb
      exact hne (Option.some.inj
        (allSame_eq _ htrue (some sa) hmem1 (some sb) hmem2))
    rw [searchReads, if_neg href, if_neg hfalse]
    exact ⟨rfl, rfl⟩

def readsRepo1 : ReadsRepo :=
  { readGroups := [(("rg1"), ("rgs1")), (("rg2"), ("rgs2"))] }

theorem unsupportedReadOperations_witness :
    (searchReads readsRepo1 [("rg1")] ("") = .error .requestNotSupported
      ∧ httpStatusOf (searchReads readsRepo1 [("rg1")] ("")) = 501)
    ∧ (searchReads readsRepo1 [("rg1"), ("rg2")] ("ref1") = .error .requestInconsistent
      ∧ httpStatusOf (searchReads readsRepo1 [("rg1"), ("rg2")] ("ref1")) = 400) :=
  ⟨(unsupportedReadOperations readsRepo1 [("rg1")] ("")).1 (by decide) rfl,
   (unsupportedReadOperations readsRepo1 [("rg1"), ("rg2")] ("ref1")).2 (by decide)
     ⟨("rg1"), by decide, ("rg2"), by decide, ("rgs1"), ("rgs2"),
      by decide, by decide, by decide⟩⟩
